import Mathlib

/-!
Verification of the EPUB batch-editing tool (`epub_change_img_tag.py`,
`epub_img_resize.py`).  The Python code is shallowly embedded: byte strings
become `Bytes`, zip members become `ZipEntry`, ebooklib book items become
`BookItem`, and the file system touched by the batch drivers becomes an
association list `FS`.  Each definition mirrors one Python function of the
repository; external library calls (ebooklib parsing/serialisation and the
BeautifulSoup tree edits that the claims do not inspect) are taken as explicit
function parameters.
-/

/-- Python list-prefix test: true when the first list is an initial segment of
the second (used to implement the substring test of the `in` operator). -/
def startsWithL : List Char → List Char → Bool
  | [], _ => true
  | _ :: _, [] => false
  | a :: as, b :: bs => a == b && startsWithL as bs

/-- Python substring scan over char lists: true when `needle` occurs
contiguously in the second list. -/
def containsL (needle : List Char) : List Char → Bool
  | [] => needle.isEmpty
  | c :: rest => startsWithL needle (c :: rest) || containsL needle rest

/-- Python `needle in hay` on strings (substring containment). -/
def strIn (needle hay : String) : Bool := containsL needle.toList hay.toList

/-- Python `s.endswith(sfx)`. -/
def strEndsWith (s sfx : String) : Bool :=
  startsWithL sfx.toList.reverse s.toList.reverse

/-- The `class` attribute of an HTML tag as BeautifulSoup exposes it: absent,
a plain string, or a multi-valued list. -/
inductive ClassAttr
  | absent
  | strVal (s : String)
  | listVal (l : List String)
deriving DecidableEq, Repr

/-- An `img` element, restricted to the attributes the transforms touch. -/
structure Img where
  width : Option String
  height : Option String
  cls : ClassAttr
deriving DecidableEq, Repr

/-- An HTML document part: its head's stylesheet link hrefs and its `img`
elements, the only parts of the tree that the transforms read or write. -/
structure Doc where
  links : List String
  imgs : List Img
deriving DecidableEq, Repr

/-- Content of an archive member or book item.  `raw` is an opaque byte
string; `htmlDoc` is the serialised form of an HTML document; `cssText` is
decoded stylesheet text; `opfData` is a package descriptor listing the hrefs
of the parts it declares. -/
inductive Bytes
  | raw (bytes : List Nat)
  | htmlDoc (d : Doc)
  | cssText (s : String)
  | opfData (listed : List String)
deriving DecidableEq, Repr

/-- One physical member of the zip container: `zipfile.ZipInfo.filename`
plus the stored bytes. -/
structure ZipEntry where
  filename : String
  content : Bytes
deriving DecidableEq, Repr

/-- One ebooklib book item: `item.file_name` and `item.content`. -/
structure BookItem where
  file_name : String
  content : Bytes
deriving DecidableEq, Repr

/-- Number of members of `out` stored under path `p`. -/
def pathCount (out : List ZipEntry) (p : String) : Nat :=
  (out.filter (fun e => e.filename == p)).length

namespace EpubChangeImgTag

/-- Body of the entry loop of `write_epub` in `epub_change_img_tag.py`: an
`.xhtml` member is written once per book item whose `file_name` is a
substring of the member's path (with that item's content); any other member
is copied verbatim. -/
def writeEntry (items : List BookItem) (e : ZipEntry) : List ZipEntry :=
  if strEndsWith e.filename ".xhtml" then
    (items.filter (fun it => strIn it.file_name e.filename)).map
      (fun it => { filename := e.filename, content := it.content })
  else
    [e]

/-- The `write_epub` of `epub_change_img_tag.py`: iterate the input archive's
members in stored order and emit the members of the `.temp` output archive. -/
def write_epub (items : List BookItem) : List ZipEntry → List ZipEntry
  | [] => []
  | e :: rest => writeEntry items e ++ write_epub items rest

/-- A file on disk: either a readable zip archive or opaque bytes (anything
`zipfile`/ebooklib fails to open, e.g. a corrupt download). -/
inductive FileData
  | zipFile (entries : List ZipEntry)
  | rawFile (bytes : List Nat)
deriving DecidableEq, Repr

/-- The directory the batch driver works in, as a path-keyed association
list. -/
abbrev FS := List (String × FileData)

/-- Read a file; `none` when the path does not exist. -/
def readFS : FS → String → Option FileData
  | [], _ => none
  | (q, d) :: rest, p => if q == p then some d else readFS rest p

/-- Create or overwrite a file. -/
def writeFS : FS → String → FileData → FS
  | [], p, d => [(p, d)]
  | (q, e) :: rest, p, d => if q == p then (q, d) :: rest else (q, e) :: writeFS rest p d

/-- Delete every record stored under `p`. -/
def eraseFS : FS → String → FS
  | [], _ => []
  | (q, e) :: rest, p => if q == p then eraseFS rest p else (q, e) :: eraseFS rest p

/-- `os.remove`: fails (raises `FileNotFoundError`) when the path is
missing. -/
def removeFS (fs : FS) (p : String) : Option FS :=
  match readFS fs p with
  | none => none
  | some _ => some (eraseFS fs p)

/-- `os.rename`: fails when the source is missing, overwrites the target. -/
def renameFS (fs : FS) (src dst : String) : Option FS :=
  match readFS fs src with
  | none => none
  | some d => some (writeFS (eraseFS fs src) dst d)

/-- `convert_svg_to_img`: open the archive, parse it with ebooklib
(`parseBook`, external), run the BeautifulSoup figure/svg rewrite over the
book (`transform`, external), and write the `.temp` sibling through
`write_epub`.  Every exception is caught inside the function, which then
returns with the file system unchanged (no `.temp` is created). -/
def convert_svg_to_img (parseBook : List ZipEntry → Option (List BookItem))
    (transform : List BookItem → List BookItem) (fs : FS) (p : String) : FS :=
  match readFS fs p with
  | some (.zipFile es) =>
      match parseBook es with
      | some items => writeFS fs (p ++ ".temp") (.zipFile (write_epub (transform items) es))
      | none => fs
  | _ => fs

/-- One iteration of the loop in `main`: call `convert_svg_to_img` (which
swallows its own errors), then unconditionally `os.remove` the original and
`os.rename` the `.temp` over it.  The two `os` calls sit outside the `try`
block, so a failure there is an uncaught exception: the result flag is
`false` and the returned state is the directory at the moment of the crash. -/
def mainStep (parseBook : List ZipEntry → Option (List BookItem))
    (transform : List BookItem → List BookItem) (fs : FS) (p : String) : FS × Bool :=
  let fs1 := convert_svg_to_img parseBook transform fs p
  match removeFS fs1 p with
  | none => (fs1, false)
  | some fs2 =>
      match renameFS fs2 (p ++ ".temp") p with
      | none => (fs2, false)
      | some fs3 => (fs3, true)

/-- The batch loop of `main`: process the archives in order; an uncaught
exception in `mainStep` terminates the whole run (flag `false`), leaving the
remaining archives unprocessed. -/
def run_batch (parseBook : List ZipEntry → Option (List BookItem))
    (transform : List BookItem → List BookItem) (fs : FS) : List String → FS × Bool
  | [] => (fs, true)
  | p :: rest =>
      match mainStep parseBook transform fs p with
      | (fs1, true) => run_batch parseBook transform fs1 rest
      | (fs1, false) => (fs1, false)

end EpubChangeImgTag

namespace EpubImgResize

/-- The `re.search` on `r"/style\.css$"` of `write_epub_style`: true when the
item's `file_name` ends in `/style.css`. -/
def regexStyleCss (fn : String) : Bool := strEndsWith fn "/style.css"

/-- The `new_style` f-string of `write_epub_style`: one CSS rule block keyed
by the generated marker class. -/
def cssRule (fit : String) : String :=
  "." ++ fit ++
    " \x7b\n width: auto;\n height: auto;\n max-width: 100%;\n max-height: 100%;\n\x7d"

/-- `bytes.decode()`: stylesheet text decodes to itself, raw bytes decode
when they are valid text (modelled as the ASCII range), anything else
raises `UnicodeDecodeError` (`none`). -/
def decodeBytes : Bytes → Option String
  | .cssText s => some s
  | .raw bs => if bs.all (fun n => n < 128) then some (String.mk (bs.map Char.ofNat)) else none
  | _ => none

/-- The `next(... if re.search(r"/style\.css$", item.file_name))` search:
first book item whose path ends in `/style.css`. -/
def findStyle : List BookItem → Option BookItem
  | [] => none
  | it :: rest => if regexStyleCss it.file_name then some it else findStyle rest

/-- The `style_item.content = style_content + "\n" + new_style` mutation on
the first matching item; `none` when `style_item.content.decode()` raises. -/
def appendToStyleItem (fit : String) : List BookItem → Option (List BookItem)
  | [] => none
  | it :: rest =>
      if regexStyleCss it.file_name then
        match decodeBytes it.content with
        | some s => some ({ it with content := .cssText (s ++ "\n" ++ cssRule fit) } :: rest)
        | none => none
      else
        (appendToStyleItem fit rest).map (fun r => it :: r)

/-- The freshly created `epub.EpubItem(uid="style", file_name="Styles/style.css",
media_type="text/css", content=new_style)`. -/
def newStyleItem (fit : String) : BookItem :=
  { file_name := "Styles/style.css", content := .cssText (cssRule fit) }

/-- The `soup.head.append(link)` loop body: an HTML item gets a stylesheet
link with `href="../Styles/style.css"` appended to its head; other items are
untouched. -/
def addLink (it : BookItem) : BookItem :=
  match it.content with
  | .htmlDoc d => { it with content := .htmlDoc { d with links := d.links ++ ["../Styles/style.css"] } }
  | _ => it

/-- The `try` body of `write_epub_style`: either append the rule to the
existing stylesheet (flag `false`: no new resource), or create
`Styles/style.css`, add it to the book, and register a link in every HTML
item (flag `true`: a new resource was introduced).  `none` models the
`except` path: the error is printed and the function returns early, so
neither `change_epub_html` nor `write_epub` runs for this archive. -/
def write_epub_style (fit : String) (book : List BookItem) :
    Option (List BookItem × Bool) :=
  match findStyle book with
  | some _ => (appendToStyleItem fit book).map (fun b => (b, false))
  | none => some ((book ++ [newStyleItem fit]).map addLink, true)

/-- BeautifulSoup's view of a class attribute as a Python list
(`img.get("class", [])` plus the `isinstance(..., str)` fixup). -/
def classList : ClassAttr → List String
  | .absent => []
  | .strVal s => [s]
  | .listVal l => l

/-- The per-`img` body of `change_epub_html`: delete `width` and `height`,
then append the marker class unless it is already present (in which case the
attribute is left exactly as it was, since `img["class"]` is only assigned
inside the `not in` branch). -/
def applyImg (marker : String) (img : Img) : Img :=
  let stripped : Img := { img with width := none, height := none }
  let cs := classList img.cls
  if marker ∈ cs then stripped
  else { stripped with cls := .listVal (cs ++ [marker]) }

/-- The document-level effect of `change_epub_html` on one HTML part. -/
def changeDoc (marker : String) (d : Doc) : Doc :=
  { d with imgs := d.imgs.map (applyImg marker) }

/-- One iteration of the item loop of `change_epub_html`: only
`epub.EpubHtml` items are edited. -/
def changeItem (marker : String) (it : BookItem) : BookItem :=
  match it.content with
  | .htmlDoc d => { it with content := .htmlDoc (changeDoc marker d) }
  | _ => it

/-- The item loop of `change_epub_html`. -/
def change_epub_html (marker : String) (book : List BookItem) : List BookItem :=
  book.map (changeItem marker)

/-- Body of the entry loop of `write_epub` in `epub_img_resize.py`: an
`.xhtml` or `.css` member is written once per book item whose `file_name` is
a substring of the member's path; any other member is copied verbatim. -/
def writeEntryIR (items : List BookItem) (e : ZipEntry) : List ZipEntry :=
  if strEndsWith e.filename ".xhtml" || strEndsWith e.filename ".css" then
    (items.filter (fun it => strIn it.file_name e.filename)).map
      (fun it => { filename := e.filename, content := it.content })
  else
    [e]

/-- The members emitted by the entry loop of `write_epub`
(`epub_img_resize.py`), in stored order. -/
def writeBase (items : List BookItem) : List ZipEntry → List ZipEntry
  | [] => []
  | e :: rest => writeEntryIR items e ++ writeBase items rest

/-- Value of the `modified` flag at the end of one entry-loop iteration: it
is reset to `False` at the top of the iteration and set only when a matched
item's `file_name` equals `"Styles/style.css"`. -/
def modifiedOfEntry (items : List BookItem) (e : ZipEntry) : Bool :=
  (strEndsWith e.filename ".xhtml" || strEndsWith e.filename ".css") &&
    items.any (fun it => strIn it.file_name e.filename && it.file_name == "Styles/style.css")

/-- Value of `modified` after the whole entry loop.  Because the flag is
reset inside the loop, only the final iteration counts; `none` models the
`NameError` raised by `if not modified` when the archive has no entries. -/
def finalModified (items : List BookItem) (entries : List ZipEntry) : Option Bool :=
  entries.foldl (fun _ e => some (modifiedOfEntry items e)) none

/-- The `if not modified` fallback of `write_epub`: every book item named
exactly `"Styles/style.css"` is written at the fixed path
`"OEBPS/Styles/style.css"`, then the book is serialised to `temp.epub` by
ebooklib (`temp`, the member list of that archive) and each of its `.opf`
members is written at the fixed path `"OEBPS/content.opf"`. -/
def fullRegenAppendix (items : List BookItem) (temp : List ZipEntry) : List ZipEntry :=
  (items.filter (fun it => it.file_name == "Styles/style.css")).map
    (fun it => { filename := "OEBPS/Styles/style.css", content := it.content })
  ++ (temp.filter (fun e => strEndsWith e.filename ".opf")).map
      (fun e => { filename := "OEBPS/content.opf", content := e.content })

/-- The `write_epub` of `epub_img_resize.py`: the entry loop followed, when
the (last-iteration) `modified` flag is still `False`, by the
full-regeneration appendix. -/
def write_epub (items : List BookItem) (temp : List ZipEntry) (entries : List ZipEntry) :
    Option (List ZipEntry) :=
  match finalModified items entries with
  | none => none
  | some true => some (writeBase items entries)
  | some false => some (writeBase items entries ++ fullRegenAppendix items temp)

/-- The book-level pipeline of one archive: `write_epub_style` followed by
`change_epub_html`.  Returns the mutated item list and whether a new
stylesheet resource was created. -/
def resizeBook (fit : String) (book : List BookItem) : Option (List BookItem × Bool) :=
  (write_epub_style fit book).map (fun p => (change_epub_html fit p.1, p.2))

/-- The whole per-archive flow of `epub_img_resize.py`:
`write_epub_style` → `change_epub_html` → `write_epub`, with ebooklib's
`epub.write_epub("temp.epub", book)` serialisation supplied as the external
function `serialize`. -/
def resizePipeline (fit : String) (serialize : List BookItem → List ZipEntry)
    (book : List BookItem) (entries : List ZipEntry) : Option (List ZipEntry) :=
  match resizeBook fit book with
  | none => none
  | some p => write_epub p.1 (serialize p.1) entries

end EpubImgResize

/-! Helper lemmas shared by the claim theorems. -/

theorem writeEntry_untargeted (items : List BookItem) (e : ZipEntry)
    (h : strEndsWith e.filename ".xhtml" = false) :
    EpubChangeImgTag.writeEntry items e = [e] := by
  simp [EpubChangeImgTag.writeEntry, h]

theorem mem_write_epub_cit (items : List BookItem) (entries : List ZipEntry) (e : ZipEntry)
    (he : e ∈ entries) (h : strEndsWith e.filename ".xhtml" = false) :
    e ∈ EpubChangeImgTag.write_epub items entries := by
  induction entries with
  | nil => cases he
  | cons a rest ih =>
      rw [EpubChangeImgTag.write_epub]
      cases he with
      | head =>
          rw [writeEntry_untargeted items e h]
          exact List.mem_append_left _ (List.mem_singleton_self e)
      | tail _ hm => exact List.mem_append_right _ (ih hm)

theorem writeEntryIR_untargeted (items : List BookItem) (e : ZipEntry)
    (h : (strEndsWith e.filename ".xhtml" || strEndsWith e.filename ".css") = false) :
    EpubImgResize.writeEntryIR items e = [e] := by
  simp only [EpubImgResize.writeEntryIR, h, Bool.false_eq_true, if_false]

theorem mem_writeBase (items : List BookItem) (entries : List ZipEntry) (e : ZipEntry)
    (he : e ∈ entries)
    (h : (strEndsWith e.filename ".xhtml" || strEndsWith e.filename ".css") = false) :
    e ∈ EpubImgResize.writeBase items entries := by
  induction entries with
  | nil => cases he
  | cons a rest ih =>
      rw [EpubImgResize.writeBase]
      cases he with
      | head =>
          rw [writeEntryIR_untargeted items e h]
          exact List.mem_append_left _ (List.mem_singleton_self e)
      | tail _ hm => exact List.mem_append_right _ (ih hm)

theorem finalModified_isSome (items : List BookItem) :
    ∀ (l : List ZipEntry) (acc : Option Bool), l ≠ [] →
      ∃ m, l.foldl (fun _ e => some (EpubImgResize.modifiedOfEntry items e)) acc = some m := by
  intro l
  induction l with
  | nil => intro acc h; exact absurd rfl h
  | cons x xs ih =>
      intro acc _
      by_cases hxs : xs = []
      · subst hxs; exact ⟨EpubImgResize.modifiedOfEntry items x, rfl⟩
      · exact ih (some (EpubImgResize.modifiedOfEntry items x)) hxs

theorem finalModified_false (items : List BookItem) :
    ∀ (l : List ZipEntry) (acc : Option Bool), l ≠ [] →
      (∀ e ∈ l, EpubImgResize.modifiedOfEntry items e = false) →
      l.foldl (fun _ e => some (EpubImgResize.modifiedOfEntry items e)) acc = some false := by
  intro l
  induction l with
  | nil => intro acc h _; exact absurd rfl h
  | cons x xs ih =>
      intro acc _ hall
      by_cases hxs : xs = []
      · subst hxs
        show some (EpubImgResize.modifiedOfEntry items x) = some false
        rw [hall x (List.mem_cons_self x [])]
      · exact ih (some (EpubImgResize.modifiedOfEntry items x)) hxs
          (fun e hee => hall e (List.mem_cons_of_mem x hee))

theorem findStyle_eq_none (book : List BookItem)
    (h : ∀ it ∈ book, EpubImgResize.regexStyleCss it.file_name = false) :
    EpubImgResize.findStyle book = none := by
  induction book with
  | nil => rfl
  | cons it rest ih =>
      rw [EpubImgResize.findStyle, h it (List.mem_cons_self it rest)]
      simp only [Bool.false_eq_true, if_false]
      exact ih (fun x hx => h x (List.mem_cons_of_mem it hx))

theorem addLink_file_name (it : BookItem) :
    (EpubImgResize.addLink it).file_name = it.file_name := by
  rcases it with ⟨fn, c⟩
  cases c <;> rfl

theorem changeItem_file_name (m : String) (it : BookItem) :
    (EpubImgResize.changeItem m it).file_name = it.file_name := by
  rcases it with ⟨fn, c⟩
  cases c <;> rfl

theorem styleFilter_nil (fit : String) (l : List BookItem)
    (h : ∀ it ∈ l, it.file_name ≠ "Styles/style.css") :
    ((l.map EpubImgResize.addLink).map (EpubImgResize.changeItem fit)).filter
      (fun it => it.file_name == "Styles/style.css") = [] := by
  rw [List.filter_eq_nil_iff]
  intro a ha
  obtain ⟨b, hb, rfl⟩ := List.mem_map.mp ha
  obtain ⟨c, hc, rfl⟩ := List.mem_map.mp hb
  simp [changeItem_file_name, addLink_file_name, h c hc]

theorem anyStyle_false (e : ZipEntry) (h : strIn "Styles/style.css" e.filename = false) :
    ∀ items : List BookItem,
      (items.any (fun it =>
        strIn it.file_name e.filename && it.file_name == "Styles/style.css")) = false
  | [] => rfl
  | it :: rest => by
      rw [List.any_cons, anyStyle_false e h rest, Bool.or_false]
      by_cases hn : it.file_name = "Styles/style.css"
      · simp [hn, h]
      · simp [hn]

theorem modifiedOfEntry_false (items : List BookItem) (e : ZipEntry)
    (h : strIn "Styles/style.css" e.filename = false) :
    EpubImgResize.modifiedOfEntry items e = false := by
  rw [EpubImgResize.modifiedOfEntry, anyStyle_false e h items, Bool.and_false]

theorem writeBase_filenames (items : List BookItem) :
    ∀ (entries : List ZipEntry), ∀ z ∈ EpubImgResize.writeBase items entries,
      ∃ e ∈ entries, z.filename = e.filename := by
  intro entries
  induction entries with
  | nil => intro z hz; cases hz
  | cons e rest ih =>
      intro z hz
      rw [EpubImgResize.writeBase] at hz
      rcases List.mem_append.mp hz with hz | hz
      · refine ⟨e, List.mem_cons_self e rest, ?_⟩
        rw [EpubImgResize.writeEntryIR] at hz
        by_cases hc : (strEndsWith e.filename ".xhtml" || strEndsWith e.filename ".css") = true
        · rw [if_pos hc] at hz
          obtain ⟨it, _, rfl⟩ := List.mem_map.mp hz
          rfl
        · rw [if_neg hc] at hz
          rw [List.mem_singleton.mp hz]
      · obtain ⟨e2, he2, hf⟩ := ih z hz
        exact ⟨e2, List.mem_cons_of_mem e he2, hf⟩

theorem pathCount_append (a b : List ZipEntry) (p : String) :
    pathCount (a ++ b) p = pathCount a p + pathCount b p := by
  rw [pathCount, pathCount, pathCount, List.filter_append, List.length_append]

theorem pathCount_writeBase_style (items : List BookItem) (entries : List ZipEntry)
    (hentries : ∀ e ∈ entries, strIn "Styles/style.css" e.filename = false) :
    pathCount (EpubImgResize.writeBase items entries) "OEBPS/Styles/style.css" = 0 := by
  rw [pathCount, List.length_eq_zero, List.filter_eq_nil_iff]
  intro z hz hbeq
  obtain ⟨e, he, hf⟩ := writeBase_filenames items entries z hz
  rw [beq_iff_eq] at hbeq
  have hEq : e.filename = "OEBPS/Styles/style.css" := hf.symm.trans hbeq
  have hfalse := hentries e he
  rw [hEq] at hfalse
  have htrue : strIn "Styles/style.css" "OEBPS/Styles/style.css" = true := by decide
  exact Bool.noConfusion (htrue.symm.trans hfalse)

theorem map_name_comp (fit : String) (l : List BookItem) :
    (((l.map EpubImgResize.addLink).map (EpubImgResize.changeItem fit)).map
        (fun it => it.file_name))
      = l.map (fun it => it.file_name) := by
  induction l with
  | nil => rfl
  | cons x xs ih => simp [changeItem_file_name, addLink_file_name, ih]

theorem applyImg_idem (m : String) (i : Img) :
    EpubImgResize.applyImg m (EpubImgResize.applyImg m i) = EpubImgResize.applyImg m i := by
  by_cases h : m ∈ EpubImgResize.classList i.cls
  · have h1 : EpubImgResize.applyImg m i = { i with width := none, height := none } := by
      simp [EpubImgResize.applyImg, h]
    rw [h1]
    simp [EpubImgResize.applyImg, h]
  · have h1 : EpubImgResize.applyImg m i =
        { width := none, height := none,
          cls := .listVal (EpubImgResize.classList i.cls ++ [m]) } := by
      simp [EpubImgResize.applyImg, h]
    rw [h1]
    simp [EpubImgResize.applyImg, EpubImgResize.classList]

theorem links_after (fit : String) (src : BookItem) :
    ∀ d, (EpubImgResize.changeItem fit (EpubImgResize.addLink src)).content = .htmlDoc d →
      "../Styles/style.css" ∈ d.links := by
  rcases src with ⟨fn, c⟩
  cases c with
  | htmlDoc d0 =>
      intro d hd
      simp [EpubImgResize.addLink, EpubImgResize.changeItem, EpubImgResize.changeDoc] at hd
      subst hd
      simp
  | raw b => intro d hd; simp [EpubImgResize.addLink, EpubImgResize.changeItem] at hd
  | cssText s => intro d hd; simp [EpubImgResize.addLink, EpubImgResize.changeItem] at hd
  | opfData l => intro d hd; simp [EpubImgResize.addLink, EpubImgResize.changeItem] at hd

/-! Claim theorems. -/

/-- C1: the claim that `write_epub`'s output has unique entry paths and keeps
every original path is false.  With two book items whose paths are both
substrings of one `.xhtml` member's path, that path is written twice; with no
matching book item, the member's path disappears from the output entirely. -/
theorem c1_output_paths_duplicated_and_dropped :
    pathCount (EpubChangeImgTag.write_epub
        [⟨"Text/ch1.xhtml", .raw [2]⟩, ⟨"ch1.xhtml", .raw [3]⟩]
        [⟨"OEBPS/Text/ch1.xhtml", .raw [1]⟩]) "OEBPS/Text/ch1.xhtml" = 2 ∧
    EpubChangeImgTag.write_epub [] [⟨"OEBPS/Text/ch1.xhtml", .raw [1]⟩] = [] := by
  decide

/-- C3: the claim that substitution happens only on exact path equality is
false.  A book item whose `file_name` is a proper suffix of the member path
replaces the member's bytes even though the two paths differ. -/
theorem c3_substring_match_substitutes_nonequal_path :
    EpubChangeImgTag.write_epub [⟨"Text/ch1.xhtml", .raw [2]⟩]
        [⟨"OEBPS/Text/ch1.xhtml", .raw [1]⟩]
      = [⟨"OEBPS/Text/ch1.xhtml", .raw [2]⟩] ∧
    ¬ ("Text/ch1.xhtml" = "OEBPS/Text/ch1.xhtml") := by
  decide

/-- C4: the claim that a failed archive leaves the original byte-identical is
false.  For a corrupt archive, `convert_svg_to_img` swallows the error and
creates no `.temp`; `main` then unconditionally deletes the original and
crashes renaming the missing `.temp`: afterwards the original file is gone. -/
theorem c4_failed_archive_original_deleted :
    (EpubChangeImgTag.run_batch (fun _ => none) id
        [("a.epub", .rawFile [0])] ["a.epub"]).2 = false ∧
    EpubChangeImgTag.readFS
      (EpubChangeImgTag.run_batch (fun _ => none) id
        [("a.epub", .rawFile [0])] ["a.epub"]).1 "a.epub" = none := by
  decide

/-- C5: the claim that one archive's failure never blocks the rest is false.
With a corrupt `a.epub` first, the batch run crashes (flag `false`) before
touching `b.epub`, although the same `b.epub` processes fine on its own. -/
theorem c5_single_failure_terminates_batch :
    EpubChangeImgTag.run_batch (fun _ => some []) id
        [("a.epub", .rawFile [0]), ("b.epub", .zipFile [⟨"c.jpg", .raw [9]⟩])]
        ["a.epub", "b.epub"]
      = ([("b.epub", .zipFile [⟨"c.jpg", .raw [9]⟩])], false) ∧
    EpubChangeImgTag.run_batch (fun _ => some []) id
        [("b.epub", .zipFile [⟨"c.jpg", .raw [9]⟩])] ["b.epub"]
      = ([("b.epub", .zipFile [⟨"c.jpg", .raw [9]⟩])], true) := by
  decide

/-- C8: the claim that a part's decode/parse failure is non-fatal for the
archive is false.  When the existing stylesheet's bytes do not decode,
`write_epub_style`'s archive-level handler aborts the entire archive: no
other part is processed and no output is produced. -/
theorem c8_part_decode_failure_aborts_archive :
    EpubImgResize.write_epub_style "fit-abcd"
        [⟨"Styles/style.css", .raw [255]⟩, ⟨"Text/ch1.xhtml", .htmlDoc ⟨[], []⟩⟩] = none ∧
    EpubImgResize.resizePipeline "fit-abcd" (fun _ => [])
        [⟨"Styles/style.css", .raw [255]⟩, ⟨"Text/ch1.xhtml", .htmlDoc ⟨[], []⟩⟩]
        [⟨"OEBPS/Text/ch1.xhtml", .raw [1]⟩] = none := by
  decide

/-- C9: the claim that the full-regeneration path is taken iff a NewResource
was introduced is false.  Here the stylesheet already exists (no new resource
was created, witnessed by the `false` flag), yet because `modified` is reset
on every entry-loop iteration and the final member is `cover.jpg`, the engine
still takes the full-regeneration path and appends `OEBPS/content.opf`. -/
theorem c9_full_regen_taken_without_new_resource :
    (EpubImgResize.resizeBook "fit-abcd" [⟨"Styles/style.css", .cssText "x"⟩]).map
        (fun p => (p.2, EpubImgResize.finalModified p.1
          [⟨"OEBPS/Styles/style.css", .cssText "x"⟩, ⟨"cover.jpg", .raw [2]⟩]))
      = some (false, some false) ∧
    (EpubImgResize.resizePipeline "fit-abcd"
        (fun b => [⟨"EPUB/content.opf", .opfData (b.map (fun it => it.file_name))⟩])
        [⟨"Styles/style.css", .cssText "x"⟩]
        [⟨"OEBPS/Styles/style.css", .cssText "x"⟩, ⟨"cover.jpg", .raw [2]⟩]).map
      (fun out => pathCount out "OEBPS/content.opf") = some 1 := by
  decide

/-- C2: a member of the source archive that no transform targets (its path
ends in neither `.xhtml` nor `.css`) is copied into the rewritten archive
with the same path and byte-identical content, by both engines. -/
theorem c2_untargeted_entries_preserved
    (items : List BookItem) (temp : List ZipEntry) (entries : List ZipEntry) (e : ZipEntry)
    (he : e ∈ entries) :
    (strEndsWith e.filename ".xhtml" = false →
       e ∈ EpubChangeImgTag.write_epub items entries) ∧
    ((strEndsWith e.filename ".xhtml" || strEndsWith e.filename ".css") = false →
       ∃ out, EpubImgResize.write_epub items temp entries = some out ∧ e ∈ out) := by
  constructor
  · intro h
    exact mem_write_epub_cit items entries e he h
  · intro h
    obtain ⟨m, hm⟩ := finalModified_isSome items entries none (by rintro rfl; cases he)
    have hbase : e ∈ EpubImgResize.writeBase items entries := mem_writeBase items entries e he h
    cases m with
    | true =>
        refine ⟨EpubImgResize.writeBase items entries, ?_, hbase⟩
        rw [EpubImgResize.write_epub, EpubImgResize.finalModified, hm]
    | false =>
        refine ⟨EpubImgResize.writeBase items entries ++
          EpubImgResize.fullRegenAppendix items temp, ?_, List.mem_append_left _ hbase⟩
        rw [EpubImgResize.write_epub, EpubImgResize.finalModified, hm]

/-- Witness for C2 at a concrete archive: the `cover.jpg` member survives
both engines verbatim. -/
theorem c2_untargeted_entries_preserved_witness :
    ((⟨"cover.jpg", .raw [7]⟩ : ZipEntry) ∈
       EpubChangeImgTag.write_epub [] [⟨"cover.jpg", .raw [7]⟩]) ∧
    (∃ out, EpubImgResize.write_epub [] [] [⟨"cover.jpg", .raw [7]⟩] = some out ∧
       (⟨"cover.jpg", .raw [7]⟩ : ZipEntry) ∈ out) := by
  have h := c2_untargeted_entries_preserved [] [] [⟨"cover.jpg", .raw [7]⟩]
    ⟨"cover.jpg", .raw [7]⟩ (List.mem_singleton_self _)
  exact ⟨h.1 (by decide), h.2 (by decide)⟩

/-- C7: the responsive-image edit of `change_epub_html` is idempotent on a
document, and (for a marker class that, being freshly generated, occurs in no
class list of the input) after one application every `img` has no `width`, no
`height`, and the marker exactly once in its class list — so a second
application duplicates no class and re-introduces no attribute. -/
theorem c7_responsive_transform_idempotent (marker : String) (d : Doc)
    (hfresh : ∀ img ∈ d.imgs, marker ∉ EpubImgResize.classList img.cls) :
    EpubImgResize.changeDoc marker (EpubImgResize.changeDoc marker d) =
      EpubImgResize.changeDoc marker d ∧
    ∀ img ∈ (EpubImgResize.changeDoc marker d).imgs,
      img.width = none ∧ img.height = none ∧
      ((EpubImgResize.classList img.cls).filter (fun c => c == marker)).length = 1 := by
  constructor
  · have hmm : ∀ l : List Img,
        (l.map (EpubImgResize.applyImg marker)).map (EpubImgResize.applyImg marker)
          = l.map (EpubImgResize.applyImg marker) := by
      intro l
      induction l with
      | nil => rfl
      | cons x xs ih => simp [applyImg_idem, ih]
    simp [EpubImgResize.changeDoc, hmm d.imgs]
  · intro img hmem
    rw [EpubImgResize.changeDoc] at hmem
    obtain ⟨i0, hi0, rfl⟩ := List.mem_map.mp hmem
    have hf := hfresh i0 hi0
    have h1 : EpubImgResize.applyImg marker i0 =
        { width := none, height := none,
          cls := .listVal (EpubImgResize.classList i0.cls ++ [marker]) } := by
      simp [EpubImgResize.applyImg, hf]
    rw [h1]
    refine ⟨rfl, rfl, ?_⟩
    have hnil : (EpubImgResize.classList i0.cls).filter (fun c => c == marker) = [] := by
      rw [List.filter_eq_nil_iff]
      intro a ha hbeq
      exact hf (beq_iff_eq.mp hbeq ▸ ha)
    show ((EpubImgResize.classList i0.cls ++ [marker]).filter (fun c => c == marker)).length = 1
    rw [List.filter_append, hnil]
    simp

/-- Witness for C7 at a concrete document with one fixed-size image. -/
theorem c7_responsive_transform_idempotent_witness :
    EpubImgResize.changeDoc "fit-abcd"
        (EpubImgResize.changeDoc "fit-abcd" ⟨[], [⟨some "100", some "50", .listVal ["illust"]⟩]⟩) =
      EpubImgResize.changeDoc "fit-abcd" ⟨[], [⟨some "100", some "50", .listVal ["illust"]⟩]⟩ ∧
    ∀ img ∈ (EpubImgResize.changeDoc "fit-abcd"
        ⟨[], [⟨some "100", some "50", .listVal ["illust"]⟩]⟩).imgs,
      img.width = none ∧ img.height = none ∧
      ((EpubImgResize.classList img.cls).filter (fun c => c == "fit-abcd")).length = 1 :=
  c7_responsive_transform_idempotent "fit-abcd"
    ⟨[], [⟨some "100", some "50", .listVal ["illust"]⟩]⟩ (by decide)

/-- C10: whenever the engine takes the full-regeneration fallback (the final
`modified` flag is `False`), every appended member is written at one of the
two hard-coded paths: each book item stored as `Styles/style.css` lands at
`OEBPS/Styles/style.css`, and every `.opf` member of the library-serialised
temp archive lands at `OEBPS/content.opf` — regardless of where the source
archive keeps its stylesheets or its package descriptor. -/
theorem c10_full_regen_uses_fixed_paths
    (items : List BookItem) (temp entries : List ZipEntry)
    (h : EpubImgResize.finalModified items entries = some false) :
    EpubImgResize.write_epub items temp entries =
      some (EpubImgResize.writeBase items entries ++
        EpubImgResize.fullRegenAppendix items temp) ∧
    (∀ z ∈ EpubImgResize.fullRegenAppendix items temp,
        z.filename = "OEBPS/Styles/style.css" ∨ z.filename = "OEBPS/content.opf") ∧
    (∀ it ∈ items, it.file_name = "Styles/style.css" →
        ({ filename := "OEBPS/Styles/style.css", content := it.content } : ZipEntry) ∈
          EpubImgResize.fullRegenAppendix items temp) ∧
    (∀ e ∈ temp, strEndsWith e.filename ".opf" = true →
        ({ filename := "OEBPS/content.opf", content := e.content } : ZipEntry) ∈
          EpubImgResize.fullRegenAppendix items temp) := by
  refine ⟨?_, ?_, ?_, ?_⟩
  · rw [EpubImgResize.write_epub, h]
  · intro z hz
    rw [EpubImgResize.fullRegenAppendix] at hz
    rcases List.mem_append.mp hz with hz | hz
    · obtain ⟨it, _, rfl⟩ := List.mem_map.mp hz
      left; rfl
    · obtain ⟨e, _, rfl⟩ := List.mem_map.mp hz
      right; rfl
  · intro it hit hname
    apply List.mem_append_left
    exact List.mem_map.mpr ⟨it, List.mem_filter.mpr ⟨hit, by simp [hname]⟩, rfl⟩
  · intro e hee hopf
    apply List.mem_append_right
    exact List.mem_map.mpr ⟨e, List.mem_filter.mpr ⟨hee, hopf⟩, rfl⟩

/-- Witness for C10 at a concrete archive whose only member is `cover.jpg`. -/
theorem c10_full_regen_uses_fixed_paths_witness :
    EpubImgResize.write_epub [⟨"Styles/style.css", .cssText "x"⟩]
        [⟨"EPUB/content.opf", .opfData ["Styles/style.css"]⟩]
        [⟨"cover.jpg", .raw [0]⟩] =
      some (EpubImgResize.writeBase [⟨"Styles/style.css", .cssText "x"⟩]
          [⟨"cover.jpg", .raw [0]⟩] ++
        EpubImgResize.fullRegenAppendix [⟨"Styles/style.css", .cssText "x"⟩]
          [⟨"EPUB/content.opf", .opfData ["Styles/style.css"]⟩]) ∧
    (⟨"OEBPS/Styles/style.css", .cssText "x"⟩ : ZipEntry) ∈
      EpubImgResize.fullRegenAppendix [⟨"Styles/style.css", .cssText "x"⟩]
        [⟨"EPUB/content.opf", .opfData ["Styles/style.css"]⟩] ∧
    (⟨"OEBPS/content.opf", .opfData ["Styles/style.css"]⟩ : ZipEntry) ∈
      EpubImgResize.fullRegenAppendix [⟨"Styles/style.css", .cssText "x"⟩]
        [⟨"EPUB/content.opf", .opfData ["Styles/style.css"]⟩] := by
  have h := c10_full_regen_uses_fixed_paths [⟨"Styles/style.css", .cssText "x"⟩]
    [⟨"EPUB/content.opf", .opfData ["Styles/style.css"]⟩]
    [⟨"cover.jpg", .raw [0]⟩] (by decide)
  exact ⟨h.1,
    h.2.2.1 ⟨"Styles/style.css", .cssText "x"⟩ (List.mem_singleton_self _) rfl,
    h.2.2.2 ⟨"EPUB/content.opf", .opfData ["Styles/style.css"]⟩
      (List.mem_singleton_self _) (by decide)⟩

/-- C6: on an archive with no stylesheet part (no book item matches
`/style.css$` and no member path contains `Styles/style.css`), the
responsive-styling run creates a new stylesheet resource, and the rewritten
archive holds exactly one member at `OEBPS/Styles/style.css` whose content is
the single rule block for the generated marker class; every HTML part of the
processed book carries a link to the stylesheet; and the regenerated package
descriptor written into the archive (produced by the external ebooklib
serialiser `serialize`, assumed to list the items of the book it is given)
lists the new stylesheet part. -/
theorem c6_no_stylesheet_archive_gains_one_stylesheet
    (fit : String) (serialize : List BookItem → List ZipEntry)
    (book : List BookItem) (entries : List ZipEntry)
    (hnostyle : ∀ it ∈ book, EpubImgResize.regexStyleCss it.file_name = false)
    (hentries : ∀ e ∈ entries, strIn "Styles/style.css" e.filename = false)
    (hne : entries ≠ [])
    (hser : ∀ b, (serialize b).filter (fun e => strEndsWith e.filename ".opf") =
        [⟨"EPUB/content.opf", Bytes.opfData (b.map (fun it => it.file_name))⟩]) :
    ∃ b2 out,
      EpubImgResize.resizeBook fit book = some (b2, true) ∧
      EpubImgResize.resizePipeline fit serialize book entries = some out ∧
      pathCount out "OEBPS/Styles/style.css" = 1 ∧
      (⟨"OEBPS/Styles/style.css", Bytes.cssText (EpubImgResize.cssRule fit)⟩ : ZipEntry) ∈ out ∧
      (∃ L, (⟨"OEBPS/content.opf", Bytes.opfData L⟩ : ZipEntry) ∈ out ∧
         "Styles/style.css" ∈ L) ∧
      (∀ it ∈ b2, ∀ d, it.content = Bytes.htmlDoc d → "../Styles/style.css" ∈ d.links) := by
  have hnames : ∀ it ∈ book, it.file_name ≠ "Styles/style.css" := by
    intro it hit heq
    have hx := hnostyle it hit
    rw [heq] at hx
    have ht : EpubImgResize.regexStyleCss "Styles/style.css" = true := by decide
    exact Bool.noConfusion (ht.symm.trans hx)
  have hwes : EpubImgResize.write_epub_style fit book =
      some ((book ++ [EpubImgResize.newStyleItem fit]).map EpubImgResize.addLink, true) := by
    rw [EpubImgResize.write_epub_style, findStyle_eq_none book hnostyle]
  set b1 : List BookItem :=
    (book ++ [EpubImgResize.newStyleItem fit]).map EpubImgResize.addLink with hb1
  set b2 : List BookItem := b1.map (EpubImgResize.changeItem fit) with hb2
  have hrb : EpubImgResize.resizeBook fit book = some (b2, true) := by
    rw [EpubImgResize.resizeBook, hwes]
    rfl
  have hmod : EpubImgResize.finalModified b2 entries = some false :=
    finalModified_false b2 entries none hne
      (fun e hee => modifiedOfEntry_false b2 e (hentries e hee))
  have hweq : EpubImgResize.write_epub b2 (serialize b2) entries =
      some (EpubImgResize.writeBase b2 entries ++
        EpubImgResize.fullRegenAppendix b2 (serialize b2)) := by
    rw [EpubImgResize.write_epub, hmod]
  have hpipe : EpubImgResize.resizePipeline fit serialize book entries =
      some (EpubImgResize.writeBase b2 entries ++
        EpubImgResize.fullRegenAppendix b2 (serialize b2)) := by
    rw [EpubImgResize.resizePipeline, hrb]
    exact hweq
  have hfilter : (b2.filter (fun it => it.file_name == "Styles/style.css"))
      = [EpubImgResize.newStyleItem fit] := by
    rw [hb2, hb1, List.map_append, List.map_append, List.filter_append]
    rw [styleFilter_nil fit book hnames, List.nil_append]
    rfl
  have happ : EpubImgResize.fullRegenAppendix b2 (serialize b2) =
      [⟨"OEBPS/Styles/style.css", Bytes.cssText (EpubImgResize.cssRule fit)⟩,
       ⟨"OEBPS/content.opf", Bytes.opfData (b2.map (fun it => it.file_name))⟩] := by
    rw [EpubImgResize.fullRegenAppendix, hfilter, hser b2]
    rfl
  have hnameL : b2.map (fun it => it.file_name)
      = (book ++ [EpubImgResize.newStyleItem fit]).map (fun it => it.file_name) := by
    rw [hb2, hb1]
    exact map_name_comp fit (book ++ [EpubImgResize.newStyleItem fit])
  have hmemL : "Styles/style.css" ∈ b2.map (fun it => it.file_name) := by
    rw [hnameL, List.map_append]
    apply List.mem_append_right
    simp [EpubImgResize.newStyleItem]
  have hcount : pathCount (EpubImgResize.writeBase b2 entries ++
      EpubImgResize.fullRegenAppendix b2 (serialize b2)) "OEBPS/Styles/style.css" = 1 := by
    rw [pathCount_append, pathCount_writeBase_style b2 entries hentries, happ]
    rfl
  refine ⟨b2, EpubImgResize.writeBase b2 entries ++
    EpubImgResize.fullRegenAppendix b2 (serialize b2), hrb, hpipe, hcount, ?_, ?_, ?_⟩
  · apply List.mem_append_right
    rw [happ]
    exact List.mem_cons_self _ _
  · refine ⟨b2.map (fun it => it.file_name), ?_, hmemL⟩
    apply List.mem_append_right
    rw [happ]
    exact List.mem_cons_of_mem _ (List.mem_singleton_self _)
  · intro it hit d hd
    rw [hb2, hb1, List.map_map] at hit
    obtain ⟨src, _, rfl⟩ := List.mem_map.mp hit
    exact links_after fit src d hd

/-- Witness for C6: a one-document, no-stylesheet archive with a concrete
marker class and a concrete model of the library serialiser. -/
theorem c6_no_stylesheet_archive_gains_one_stylesheet_witness :
    ∃ b2 out,
      EpubImgResize.resizeBook "fit-abcd" [⟨"Text/ch1.xhtml", .htmlDoc ⟨[], []⟩⟩]
        = some (b2, true) ∧
      EpubImgResize.resizePipeline "fit-abcd"
        (fun b => [⟨"EPUB/content.opf", Bytes.opfData (b.map (fun it => it.file_name))⟩])
        [⟨"Text/ch1.xhtml", .htmlDoc ⟨[], []⟩⟩] [⟨"mimetype", .raw [1]⟩] = some out ∧
      pathCount out "OEBPS/Styles/style.css" = 1 ∧
      (⟨"OEBPS/Styles/style.css",
         Bytes.cssText (EpubImgResize.cssRule "fit-abcd")⟩ : ZipEntry) ∈ out ∧
      (∃ L, (⟨"OEBPS/content.opf", Bytes.opfData L⟩ : ZipEntry) ∈ out ∧
         "Styles/style.css" ∈ L) ∧
      (∀ it ∈ b2, ∀ d, it.content = Bytes.htmlDoc d → "../Styles/style.css" ∈ d.links) :=
  c6_no_stylesheet_archive_gains_one_stylesheet "fit-abcd"
    (fun b => [⟨"EPUB/content.opf", Bytes.opfData (b.map (fun it => it.file_name))⟩])
    [⟨"Text/ch1.xhtml", .htmlDoc ⟨[], []⟩⟩] [⟨"mimetype", .raw [1]⟩]
    (by decide) (by decide) (by decide) (by intro b; rfl)
